import Mathlib

/-!
Verification of the matrix-multiplication compute core of the repository
(`SimpleMatrixMultiplication.cpp` and `TiledMatrixMultiplication.cpp`).

Shallow embedding conventions:
- 32-bit float buffers are modelled as `Nat → Int` (flat row-major global
  memory); the properties verified here concern exact arithmetic and the
  reduction index sequence, for which an exact ring suffices.
- A CUDA thread is modelled by the pure function it computes: both kernels
  write their accumulator to one cell and read global memory only; barriers in
  the tiled kernel guarantee that every scratch cell `ds_A[ty][i]` /
  `ds_B[i][tx]` a thread consumes holds the value the sibling thread stored in
  the same tile iteration, so each scratch cell is embedded as the value of its
  load expression.
- The host `main`s are embedded as an executor over an explicit failure
  schedule for the `wbCheck`-wrapped device operations; `wbCheck`'s
  `return -1` is modelled as a `deviceOpFailed` outcome.
-/

namespace GPU

/-- `const unsigned TILE_WIDTH = 16;` (same constant in both source files). -/
def TILE_WIDTH : Nat := 16

/-- Left-accumulating sum `v = 0; for (k = 0; k < n; ++k) v += f k;`,
the accumulation shape of both kernels' loops. -/
def sumRange (f : Nat → Int) : Nat → Int
  | 0 => 0
  | n + 1 => sumRange f n + f n

/-- The six dimension arguments passed to both kernels. -/
structure Dims where
  numARows : Nat
  numAColumns : Nat
  numBRows : Nat
  numBColumns : Nat
  numCRows : Nat
  numCColumns : Nat
deriving DecidableEq, Repr

/-- Output dimensions exactly as both `main`s derive them:
`numCRows = numARows; numCColumns = numBColumns;`. -/
def mkDims (aR aC bR bC : Nat) : Dims :=
  { numARows := aR, numAColumns := aC, numBRows := bR, numBColumns := bC,
    numCRows := aR, numCColumns := bC }

/-- Flat index `Row * numAColumns + i` used for every read of `A` by the naive
kernel (row-major). -/
def A_index (d : Dims) (Row i : Nat) : Nat := Row * d.numAColumns + i

/-- Flat index `Col + i * numBColumns` used for every read of `B` by the naive
kernel. -/
def B_index (d : Dims) (Col i : Nat) : Nat := Col + i * d.numBColumns

/-- Flat index `Row * numCColumns + Col` of the output cell written by both
kernels. -/
def C_index (d : Dims) (Row Col : Nat) : Nat := Row * d.numCColumns + Col

/-- Buffer length `rows * columns` of `A` (data-model invariant
`buffer.length == rows * columns`). -/
def lenA (d : Dims) : Nat := d.numARows * d.numAColumns

/-- Buffer length of `B`. -/
def lenB (d : Dims) : Nat := d.numBRows * d.numBColumns

/-- Buffer length of `C`. -/
def lenC (d : Dims) : Nat := d.numCRows * d.numCColumns

/-- The accumulator of the naive kernel (`SimpleMatrixMultiplication.cpp`):
`for (i = 0; i < numAColumns; ++i) Cvalue += A[Row*numAColumns+i] * B[Col + i*numBColumns];`. -/
def naiveCvalue (d : Dims) (A B : Nat → Int) (Row Col : Nat) : Int :=
  sumRange (fun i => A (A_index d Row i) * B (B_index d Col i)) d.numAColumns

/-- The naive kernel's single thread at coordinate `(Row, Col)`: the write it
performs (`some (index, value)`), or `none` when the bounds guard
`(Row < numCRows) && (Col < numCColumns)` fails. -/
def naiveWorker (d : Dims) (A B : Nat → Int) (Row Col : Nat) : Option (Nat × Int) :=
  if Row < d.numCRows ∧ Col < d.numCColumns then
    some (C_index d Row Col, naiveCvalue d A B Row Col)
  else none

/-- Reference triple-loop result: `sum over k in [0, sharedDimension) of
A[row, k] * B[k, col]` with row-major indices `row * numColumns + col`
(shared dimension read off `A.columns`). -/
def refMul (d : Dims) (A B : Nat → Int) (r c : Nat) : Int :=
  sumRange (fun k => A (r * d.numAColumns + k) * B (k * d.numBColumns + c)) d.numAColumns

/-- Value of scratch cell `ds_A[ty][i]` of the tile-`t` iteration, for a thread
with output row `Row` (`TiledMatrixMultiplication.cpp`): the sibling thread with
`tx = i` stored `A[Row * n + (t*TILE_WIDTH + i)]` when
`Row < numCRows && t*TILE_WIDTH + i < n` (with `n = numAColumns`), else `0.0`. -/
def ds_A (d : Dims) (A : Nat → Int) (Row t i : Nat) : Int :=
  if Row < d.numCRows ∧ t * TILE_WIDTH + i < d.numAColumns then
    A (Row * d.numAColumns + (t * TILE_WIDTH + i))
  else 0

/-- Value of scratch cell `ds_B[i][tx]` of the tile-`t` iteration, for a thread
with output column `Col`: the sibling thread with `ty = i` stored
`B[(t*TILE_WIDTH + i) * numCColumns + Col]` when
`Col < numCColumns && t*TILE_WIDTH + i < n`, else `0.0`. -/
def ds_B (d : Dims) (B : Nat → Int) (Col t i : Nat) : Int :=
  if Col < d.numCColumns ∧ t * TILE_WIDTH + i < d.numAColumns then
    B ((t * TILE_WIDTH + i) * d.numCColumns + Col)
  else 0

/-- Tile-loop trip count `(n - 1) / TILE_WIDTH + 1` with `n = numAColumns`
(C++ and Nat division agree here for every `n`, including `n = 0` where both
give `1`). -/
def numTiles (d : Dims) : Nat := (d.numAColumns - 1) / TILE_WIDTH + 1

/-- The accumulator of the tiled kernel: over every tile `t`,
`for (i = 0; i < TILE_WIDTH; ++i) Cvalue += ds_A[ty][i] * ds_B[i][tx];`. -/
def tiledCvalue (d : Dims) (A B : Nat → Int) (Row Col : Nat) : Int :=
  sumRange (fun t => sumRange (fun i => ds_A d A Row t i * ds_B d B Col t i) TILE_WIDTH)
    (numTiles d)

/-- The tiled kernel's thread at output coordinate `(Row, Col)`: the guarded
final write `if ((Row < numCRows) && (Col < numCColumns)) C[Row*numCColumns+Col] = Cvalue;`. -/
def tiledWorker (d : Dims) (A B : Nat → Int) (Row Col : Nat) : Option (Nat × Int) :=
  if Row < d.numCRows ∧ Col < d.numCColumns then
    some (C_index d Row Col, tiledCvalue d A B Row Col)
  else none

/-- Row-major `n × n` identity matrix as a flat buffer:
cell `k * n + c` holds `1` when `k = c`, else `0`. -/
def idBuf (n : Nat) : Nat → Int :=
  fun idx => if idx / n = idx % n then 1 else 0

/-- Read/write trace of one kernel thread: flat indices read from `A` and `B`,
and the `(index, value)` writes to `C`, in program order. -/
structure KernelTrace where
  readsA : List Nat
  readsB : List Nat
  writes : List (Nat × Int)
deriving DecidableEq, Repr

/-- Full effect trace of the naive kernel's thread `(Row, Col)`: the bounds
guard encloses the whole body, so an out-of-bounds thread reads and writes
nothing; an in-bounds thread reads row `Row` of `A` and column `Col` of `B`
(`numAColumns` reads each) and performs the single write. -/
def naiveThread (d : Dims) (A B : Nat → Int) (Row Col : Nat) : KernelTrace :=
  if Row < d.numCRows ∧ Col < d.numCColumns then
    { readsA := (List.range d.numAColumns).map (fun i => A_index d Row i),
      readsB := (List.range d.numAColumns).map (fun i => B_index d Col i),
      writes := [(C_index d Row Col, naiveCvalue d A B Row Col)] }
  else
    { readsA := [], readsB := [], writes := [] }

/-- Scratch-store trace of the tiled kernel's thread `(bx, by, tx, ty)`:
per tile iteration `t` the thread stores one value into `ds_A[ty][tx]`
(namely `ds_A` at column index `tx`) and one into `ds_B[ty][tx]`
(namely `ds_B` at row index `ty`), unconditionally; the write to `C` is
guarded by the output bounds. -/
structure TiledTrace where
  storesA : List Int
  storesB : List Int
  writes : List (Nat × Int)
deriving DecidableEq, Repr

/-- The tiled kernel's thread `(bx, by, tx, ty)` with
`Col = bx * blockDim.x + tx`, `Row = by * blockDim.y + ty` and
`blockDim = (TILE_WIDTH, TILE_WIDTH)`. -/
def tiledThread (d : Dims) (A B : Nat → Int) (bx by' tx ty : Nat) : TiledTrace :=
  { storesA := (List.range (numTiles d)).map
      (fun t => ds_A d A (by' * TILE_WIDTH + ty) t tx),
    storesB := (List.range (numTiles d)).map
      (fun t => ds_B d B (bx * TILE_WIDTH + tx) t ty),
    writes :=
      if by' * TILE_WIDTH + ty < d.numCRows ∧ bx * TILE_WIDTH + tx < d.numCColumns then
        [(C_index d (by' * TILE_WIDTH + ty) (bx * TILE_WIDTH + tx),
          tiledCvalue d A B (by' * TILE_WIDTH + ty) (bx * TILE_WIDTH + tx))]
      else [] }

/-- Apply a list of `(index, value)` writes to a flat output buffer, in order. -/
def applyWrites (C0 : Nat → Int) : List (Nat × Int) → (Nat → Int)
  | [] => C0
  | (j, v) :: rest => applyWrites (fun k => if k = j then v else C0 k) rest

/-! ### Launch geometry (host side) -/

/-- `(n - 1) / TILE_WIDTH + 1`, the per-axis block count computed by both
`main`s. -/
def ceilTiles (n : Nat) : Nat := (n - 1) / TILE_WIDTH + 1

/-- A `dim3` extent. -/
structure Dim3 where
  x : Nat
  y : Nat
  z : Nat
deriving DecidableEq, Repr

/-- `SimpleMatrixMultiplication.cpp`:
`dim3 dimGrid((numCRows-1)/TILE_WIDTH+1, (numCColumns-1)/TILE_WIDTH+1, 1);`. -/
def simpleDimGrid (numCRows numCColumns : Nat) : Dim3 :=
  ⟨ceilTiles numCRows, ceilTiles numCColumns, 1⟩

/-- `TiledMatrixMultiplication.cpp`:
`dim3 dimGrid((numCColumns-1)/TILE_WIDTH+1, (numCRows-1)/TILE_WIDTH+1, 1);`. -/
def tiledDimGrid (numCRows numCColumns : Nat) : Dim3 :=
  ⟨ceilTiles numCColumns, ceilTiles numCRows, 1⟩

/-- `dim3 dimBlock(TILE_WIDTH, TILE_WIDTH, 1);` (both source files). -/
def dimBlock : Dim3 := ⟨TILE_WIDTH, TILE_WIDTH, 1⟩

/-- The naive kernel's row assignment `Row = blockIdx.x * blockDim.x + threadIdx.x`
(and, with the roles of the axes swapped, every other coordinate assignment of
either kernel: `blockIdx * TILE_WIDTH + threadIdx`). -/
def coordOf (b t : Nat) : Nat := b * TILE_WIDTH + t

/-! ### Host orchestration (`main`) -/

/-- Device buffer identifiers `deviceA`, `deviceB`, `deviceC`. -/
inductive BufId
  | A
  | B
  | C
deriving DecidableEq, Repr

/-- The device operations issued by `main`, in source order. -/
inductive HostEvent
  | cudaMalloc (b : BufId)
  | memcpyHtoD (b : BufId)
  | kernelLaunch
  | deviceSync
  | memcpyDtoH
  | cudaFree (b : BufId)
deriving DecidableEq, Repr

/-- The error taxonomy of the specification. The code can only surface
`deviceOpFailed` (a `wbCheck` that sees `err != cudaSuccess` and does
`return -1`); no dimension validation exists anywhere in either `main`. -/
inductive HostError
  | dimensionMismatch
  | deviceOpFailed
deriving DecidableEq, Repr

/-- Observable outcome of one run of `main`: the error it propagated (if any),
the device events it issued, and the device buffers still allocated when it
returned (leaked unless the run freed them). -/
structure MainResult where
  dims : Dims
  error : Option HostError
  events : List HostEvent
  allocated : List BufId
deriving DecidableEq, Repr

/-- `main` of either source file, transcribed step by step over a failure
schedule `fails` for the device operations. It sets `numCRows = numARows`,
`numCColumns = numBColumns` and then — with no dimension validation — runs the
`wbCheck`-wrapped chain: three `cudaMalloc`s, two host-to-device copies, the
(unchecked) kernel launch and `cudaDeviceSynchronize`, the checked
device-to-host copy, and three checked `cudaFree`s. Each failing checked
operation makes `wbCheck` `return -1` at once, freeing nothing. -/
def runMain (aR aC bR bC : Nat) (fails : HostEvent → Bool) : MainResult :=
  let d := mkDims aR aC bR bC
  if fails (.cudaMalloc .A) then
    { dims := d, error := some .deviceOpFailed,
      events := [.cudaMalloc .A], allocated := [] }
  else if fails (.cudaMalloc .B) then
    { dims := d, error := some .deviceOpFailed,
      events := [.cudaMalloc .A, .cudaMalloc .B], allocated := [.A] }
  else if fails (.cudaMalloc .C) then
    { dims := d, error := some .deviceOpFailed,
      events := [.cudaMalloc .A, .cudaMalloc .B, .cudaMalloc .C], allocated := [.A, .B] }
  else if fails (.memcpyHtoD .A) then
    { dims := d, error := some .deviceOpFailed,
      events := [.cudaMalloc .A, .cudaMalloc .B, .cudaMalloc .C, .memcpyHtoD .A],
      allocated := [.A, .B, .C] }
  else if fails (.memcpyHtoD .B) then
    { dims := d, error := some .deviceOpFailed,
      events := [.cudaMalloc .A, .cudaMalloc .B, .cudaMalloc .C, .memcpyHtoD .A,
        .memcpyHtoD .B],
      allocated := [.A, .B, .C] }
  else if fails .memcpyDtoH then
    { dims := d, error := some .deviceOpFailed,
      events := [.cudaMalloc .A, .cudaMalloc .B, .cudaMalloc .C, .memcpyHtoD .A,
        .memcpyHtoD .B, .kernelLaunch, .deviceSync, .memcpyDtoH],
      allocated := [.A, .B, .C] }
  else if fails (.cudaFree .A) then
    { dims := d, error := some .deviceOpFailed,
      events := [.cudaMalloc .A, .cudaMalloc .B, .cudaMalloc .C, .memcpyHtoD .A,
        .memcpyHtoD .B, .kernelLaunch, .deviceSync, .memcpyDtoH, .cudaFree .A],
      allocated := [.A, .B, .C] }
  else if fails (.cudaFree .B) then
    { dims := d, error := some .deviceOpFailed,
      events := [.cudaMalloc .A, .cudaMalloc .B, .cudaMalloc .C, .memcpyHtoD .A,
        .memcpyHtoD .B, .kernelLaunch, .deviceSync, .memcpyDtoH, .cudaFree .A,
        .cudaFree .B],
      allocated := [.B, .C] }
  else if fails (.cudaFree .C) then
    { dims := d, error := some .deviceOpFailed,
      events := [.cudaMalloc .A, .cudaMalloc .B, .cudaMalloc .C, .memcpyHtoD .A,
        .memcpyHtoD .B, .kernelLaunch, .deviceSync, .memcpyDtoH, .cudaFree .A,
        .cudaFree .B, .cudaFree .C],
      allocated := [.C] }
  else
    { dims := d, error := none,
      events := [.cudaMalloc .A, .cudaMalloc .B, .cudaMalloc .C, .memcpyHtoD .A,
        .memcpyHtoD .B, .kernelLaunch, .deviceSync, .memcpyDtoH, .cudaFree .A,
        .cudaFree .B, .cudaFree .C],
      allocated := [] }

/-- The `wbCheck`-wrapped device operations that run after `deviceA` has been
allocated: a failure of any of them returns from `main` while at least one
device buffer is still allocated. -/
def checkedAfterFirstAlloc : List HostEvent :=
  [.cudaMalloc .B, .cudaMalloc .C, .memcpyHtoD .A, .memcpyHtoD .B, .memcpyDtoH,
   .cudaFree .A, .cudaFree .B, .cudaFree .C]

/-! ### Summation lemmas -/

theorem sumRange_congr {f g : Nat → Int} {n : Nat} (h : ∀ i, i < n → f i = g i) :
    sumRange f n = sumRange g n := by
  induction n with
  | zero => rfl
  | succ n ih =>
    simp only [sumRange]
    rw [ih (fun i hi => h i (Nat.lt_succ_of_lt hi)), h n (Nat.lt_succ_self n)]

theorem sumRange_const_zero (n : Nat) : sumRange (fun _ => (0 : Int)) n = 0 := by
  induction n with
  | zero => rfl
  | succ n ih => simp only [sumRange, ih, add_zero]

theorem sumRange_split (f : Nat → Int) (a b : Nat) :
    sumRange f (a + b) = sumRange f a + sumRange (fun i => f (a + i)) b := by
  induction b with
  | zero => simp [sumRange]
  | succ b ih =>
    have h1 : sumRange f (a + (b + 1)) = sumRange f (a + b) + f (a + b) := rfl
    have h2 : sumRange (fun i => f (a + i)) (b + 1)
        = sumRange (fun i => f (a + i)) b + f (a + b) := rfl
    rw [h1, h2, ih, add_assoc]

theorem sumRange_flatten (f : Nat → Int) (W T : Nat) :
    sumRange (fun t => sumRange (fun i => f (t * W + i)) W) T = sumRange f (T * W) := by
  induction T with
  | zero => rw [Nat.zero_mul]; rfl
  | succ T ih =>
    simp only [sumRange, Nat.succ_mul]
    rw [sumRange_split f (T * W) W, ih]

theorem sumRange_trunc (f : Nat → Int) {n m : Nat} (h : n ≤ m) :
    sumRange (fun k => if k < n then f k else 0) m = sumRange f n := by
  obtain ⟨b, rfl⟩ := Nat.le.dest h
  rw [sumRange_split]
  have h1 : sumRange (fun k => if k < n then f k else 0) n = sumRange f n :=
    sumRange_congr (fun i hi => by simp [hi])
  have h2 : sumRange (fun i => if n + i < n then f (n + i) else 0) b = 0 := by
    rw [sumRange_congr (g := fun _ => (0 : Int)) (fun i _ => by rw [if_neg (by omega)]),
      sumRange_const_zero]
  rw [h1, h2, add_zero]

theorem lt_ceil_mul {n : Nat} (W : Nat) (hW : 0 < W) : n ≤ ((n - 1) / W + 1) * W := by
  rcases Nat.eq_zero_or_pos n with h0 | h1
  · subst h0; exact Nat.zero_le _
  · have hmod : (n - 1) % W < W := Nat.mod_lt _ hW
    have hdm : (n - 1) / W * W + (n - 1) % W = n - 1 := Nat.div_add_mod' (n - 1) W
    have : n - 1 < (n - 1) / W * W + W := by omega
    calc n = n - 1 + 1 := by omega
    _ ≤ (n - 1) / W * W + W := by omega
    _ = ((n - 1) / W + 1) * W := by ring

theorem sumRange_mul_indicator (g : Nat → Int) {c n : Nat} (hc : c < n) :
    sumRange (fun k => g k * (if k = c then 1 else 0)) n = g c := by
  induction n with
  | zero => omega
  | succ n ih =>
    simp only [sumRange]
    rcases Nat.lt_succ_iff_lt_or_eq.mp hc with h | h
    · rw [ih h, if_neg (by omega), mul_zero, add_zero]
    · subst h
      rw [if_pos rfl, mul_one,
        sumRange_congr (g := fun _ => (0 : Int)) (fun i hi => by rw [if_neg (by omega), mul_zero]),
        sumRange_const_zero, zero_add]

/-! ### Core kernel-equivalence lemmas (shared helpers) -/

/-- The naive accumulator is the reference sum once `B`'s index is rewritten
with `numBColumns = numCColumns` is not even needed: `Col + i*numBColumns` and
`i*numBColumns + Col` coincide. -/
theorem naiveCvalue_eq_refMul (d : Dims) (A B : Nat → Int) (Row Col : Nat) :
    naiveCvalue d A B Row Col = refMul d A B Row Col := by
  unfold naiveCvalue refMul A_index B_index
  exact sumRange_congr (fun i _ => by rw [Nat.add_comm Col (i * d.numBColumns)])

/-- For an in-bounds thread the tiled accumulator collapses to the plain dot
product over `numAColumns`: the two tile-load guards reduce to
`k < numAColumns`, and the zero-padded terms beyond `numAColumns` vanish. -/
theorem tiledCvalue_eq (d : Dims) (A B : Nat → Int) {Row Col : Nat}
    (hR : Row < d.numCRows) (hC : Col < d.numCColumns) :
    tiledCvalue d A B Row Col =
      sumRange (fun k => A (Row * d.numAColumns + k) * B (k * d.numCColumns + Col))
        d.numAColumns := by
  have hG : ∀ t i, ds_A d A Row t i * ds_B d B Col t i =
      (fun k => if k < d.numAColumns then
        A (Row * d.numAColumns + k) * B (k * d.numCColumns + Col) else 0)
        (t * TILE_WIDTH + i) := by
    intro t i
    simp only [ds_A, ds_B]
    by_cases hk : t * TILE_WIDTH + i < d.numAColumns
    · rw [if_pos ⟨hR, hk⟩, if_pos ⟨hC, hk⟩, if_pos hk]
    · rw [if_neg (by tauto), if_neg (by tauto), if_neg hk, mul_zero]
  have hle : d.numAColumns ≤ numTiles d * TILE_WIDTH := by
    unfold numTiles TILE_WIDTH
    exact lt_ceil_mul 16 (by norm_num)
  calc tiledCvalue d A B Row Col
      = sumRange (fun t => sumRange (fun i =>
          (fun k => if k < d.numAColumns then
            A (Row * d.numAColumns + k) * B (k * d.numCColumns + Col) else 0)
          (t * TILE_WIDTH + i)) TILE_WIDTH) (numTiles d) := by
        unfold tiledCvalue
        exact sumRange_congr (fun t _ => sumRange_congr (fun i _ => hG t i))
    _ = sumRange (fun k => if k < d.numAColumns then
          A (Row * d.numAColumns + k) * B (k * d.numCColumns + Col) else 0)
          (numTiles d * TILE_WIDTH) :=
        sumRange_flatten (fun k => if k < d.numAColumns then
          A (Row * d.numAColumns + k) * B (k * d.numCColumns + Col) else 0)
          TILE_WIDTH (numTiles d)
    _ = sumRange (fun k => A (Row * d.numAColumns + k) * B (k * d.numCColumns + Col))
          d.numAColumns :=
        sumRange_trunc (fun k => A (Row * d.numAColumns + k) * B (k * d.numCColumns + Col)) hle

/-- Both kernels agree thread-by-thread on the dimensions produced by `main`
(`numCRows = numARows`, `numCColumns = numBColumns`). -/
theorem tiledWorker_eq_naiveWorker (aR aC bR bC : Nat) (A B : Nat → Int) (Row Col : Nat) :
    tiledWorker (mkDims aR aC bR bC) A B Row Col =
      naiveWorker (mkDims aR aC bR bC) A B Row Col := by
  unfold tiledWorker naiveWorker
  by_cases h : Row < (mkDims aR aC bR bC).numCRows ∧ Col < (mkDims aR aC bR bC).numCColumns
  · rw [if_pos h, if_pos h]
    have := tiledCvalue_eq (mkDims aR aC bR bC) A B h.1 h.2
    rw [this, naiveCvalue_eq_refMul]
    unfold refMul mkDims
    simp only
  · rw [if_neg h, if_neg h]

theorem tw_pos : 0 < TILE_WIDTH := by decide

/-- Reading the flat identity buffer at `c + k * n` (the naive kernel's `B`
index) for `c < n` yields the Kronecker delta `δ k c`. -/
theorem idBuf_at {n c : Nat} (hc : c < n) (k : Nat) :
    idBuf n (c + k * n) = if k = c then 1 else 0 := by
  have hn : 0 < n := Nat.lt_of_le_of_lt (Nat.zero_le c) hc
  unfold idBuf
  have hd : (c + k * n) / n = k := by
    rw [Nat.add_mul_div_right _ _ hn, Nat.div_eq_of_lt hc, Nat.zero_add]
  have hm : (c + k * n) % n = c := by
    rw [Nat.add_mul_mod_self_right, Nat.mod_eq_of_lt hc]
  rw [hd, hm]

/-- Any coordinate `r < n` is covered by some block/thread pair of the
per-axis launch geometry. -/
theorem coord_cover {n r : Nat} (h : r < n) :
    ∃ b t, b < ceilTiles n ∧ t < TILE_WIDTH ∧ coordOf b t = r := by
  have hle : n ≤ ceilTiles n * TILE_WIDTH := by
    unfold ceilTiles TILE_WIDTH
    exact lt_ceil_mul 16 (by norm_num)
  refine ⟨r / TILE_WIDTH, r % TILE_WIDTH, ?_, Nat.mod_lt _ tw_pos, ?_⟩
  · exact (Nat.div_lt_iff_lt_mul tw_pos).mpr (Nat.lt_of_lt_of_le h hle)
  · exact Nat.div_add_mod' r TILE_WIDTH

theorem getD_map_range (f : Nat → Int) {n t : Nat} (h : t < n) :
    ((List.range n).map f).getD t 0 = f t := by
  rw [List.getD_eq_getElem?_getD, List.getElem?_map, List.getElem?_range h]
  rfl

/-- A buffer backed by a concrete row-major list (out-of-range reads as `0`),
used to instantiate theorems at concrete matrices. -/
def bufOfList (l : List Int) : Nat → Int := fun i => l.getD i 0

/-! ### Claim theorems -/

/-- C1: for every pair of matrices `A`, `B` with `A.columns = B.rows`, under
the output dimensions both `main`s derive (`numCRows = numARows`,
`numCColumns = numBColumns`), the tiled kernel and the naive kernel agree
thread-by-thread: at every output coordinate both perform the same write (and
in particular, at every in-bounds coordinate they write the same value to the
same cell of `C`), over exact arithmetic. -/
theorem C1_tiled_matches_naive (aR aC bR bC : Nat) (A B : Nat → Int)
    (hdim : aC = bR) (r c : Nat) :
    tiledWorker (mkDims aR aC bR bC) A B r c = naiveWorker (mkDims aR aC bR bC) A B r c :=
  tiledWorker_eq_naiveWorker aR aC bR bC A B r c

theorem C1_witness :
    (2 : Nat) = 2 ∧
    tiledWorker (mkDims 2 2 2 2) (bufOfList [1, 2, 3, 4]) (bufOfList [5, 6, 7, 8]) 0 1 =
      naiveWorker (mkDims 2 2 2 2) (bufOfList [1, 2, 3, 4]) (bufOfList [5, 6, 7, 8]) 0 1 :=
  ⟨rfl, C1_tiled_matches_naive 2 2 2 2 (bufOfList [1, 2, 3, 4]) (bufOfList [5, 6, 7, 8]) rfl 0 1⟩

/-- C2: under `numAColumns = numBRows`, `numCRows = numARows` and
`numCColumns = numBColumns`, the naive kernel's in-bounds thread `(Row, Col)`
writes to the row-major cell `Row * numCColumns + Col` exactly the reference
triple-loop value `sum over k < sharedDimension of A[Row,k] * B[k,Col]`. -/
theorem C2_naive_matches_reference (d : Dims) (A B : Nat → Int) (Row Col : Nat)
    (h1 : d.numAColumns = d.numBRows) (h2 : d.numCRows = d.numARows)
    (h3 : d.numCColumns = d.numBColumns)
    (hr : Row < d.numCRows) (hc : Col < d.numCColumns) :
    naiveWorker d A B Row Col = some (C_index d Row Col, refMul d A B Row Col) := by
  unfold naiveWorker
  rw [if_pos ⟨hr, hc⟩, naiveCvalue_eq_refMul]

theorem C2_witness :
    naiveWorker ⟨2, 2, 2, 2, 2, 2⟩ (bufOfList [1, 2, 3, 4]) (bufOfList [5, 6, 7, 8]) 1 1 =
      some (C_index ⟨2, 2, 2, 2, 2, 2⟩ 1 1,
        refMul ⟨2, 2, 2, 2, 2, 2⟩ (bufOfList [1, 2, 3, 4]) (bufOfList [5, 6, 7, 8]) 1 1) :=
  C2_naive_matches_reference ⟨2, 2, 2, 2, 2, 2⟩ (bufOfList [1, 2, 3, 4])
    (bufOfList [5, 6, 7, 8]) 1 1 rfl rfl rfl (by decide) (by decide)

/-- C3: for matrices whose rows, columns or shared dimension are not exact
multiples of `TILE_WIDTH = 16`, the tiled kernel still writes the
mathematically correct product at every in-bounds coordinate: the zero-padded
boundary tile loads contribute nothing to the accumulated sum. -/
theorem C3_tiled_correct_nonmultiple (aR aC bR bC : Nat) (A B : Nat → Int)
    (hdim : aC = bR)
    (hnm : aR % TILE_WIDTH ≠ 0 ∨ aC % TILE_WIDTH ≠ 0 ∨ bC % TILE_WIDTH ≠ 0)
    (r c : Nat) (hr : r < aR) (hc : c < bC) :
    tiledWorker (mkDims aR aC bR bC) A B r c =
      some (C_index (mkDims aR aC bR bC) r c, refMul (mkDims aR aC bR bC) A B r c) := by
  unfold tiledWorker
  rw [if_pos ⟨hr, hc⟩, tiledCvalue_eq (mkDims aR aC bR bC) A B hr hc]
  rfl

theorem C3_witness :
    ((17 : Nat) % TILE_WIDTH ≠ 0 ∨ (19 : Nat) % TILE_WIDTH ≠ 0 ∨
      (23 : Nat) % TILE_WIDTH ≠ 0) ∧
    tiledWorker (mkDims 17 19 19 23) (fun _ => 1) (fun _ => 2) 16 22 =
      some (C_index (mkDims 17 19 19 23) 16 22,
        refMul (mkDims 17 19 19 23) (fun _ => 1) (fun _ => 2) 16 22) :=
  ⟨Or.inl (by decide),
    C3_tiled_correct_nonmultiple 17 19 19 23 (fun _ => 1) (fun _ => 2) rfl
      (Or.inl (by decide)) 16 22 (by decide) (by decide)⟩

/-- C7: multiplying any `m × n` matrix `A` by the `n × n` identity matrix
returns `A` unchanged: under either kernel, every in-bounds thread `(r, c)`
writes exactly `A[r, c]` to its output cell. -/
theorem C7_identity (m n : Nat) (A : Nat → Int) (r c : Nat)
    (hr : r < m) (hc : c < n) :
    naiveWorker (mkDims m n n n) A (idBuf n) r c =
      some (C_index (mkDims m n n n) r c, A (r * n + c)) ∧
    tiledWorker (mkDims m n n n) A (idBuf n) r c =
      some (C_index (mkDims m n n n) r c, A (r * n + c)) := by
  have hval : naiveCvalue (mkDims m n n n) A (idBuf n) r c = A (r * n + c) := by
    show sumRange (fun i => A (r * n + i) * idBuf n (c + i * n)) n = A (r * n + c)
    rw [sumRange_congr (g := fun i => A (r * n + i) * (if i = c then 1 else 0))
      (fun i _ => by rw [idBuf_at hc i])]
    exact sumRange_mul_indicator (fun i => A (r * n + i)) hc
  have hnaive : naiveWorker (mkDims m n n n) A (idBuf n) r c =
      some (C_index (mkDims m n n n) r c, A (r * n + c)) := by
    unfold naiveWorker
    rw [if_pos ⟨hr, hc⟩, hval]
  exact ⟨hnaive, (tiledWorker_eq_naiveWorker m n n n A (idBuf n) r c).trans hnaive⟩

theorem C7_witness :
    (1 : Nat) < 2 ∧ (2 : Nat) < 3 ∧
    (naiveWorker (mkDims 2 3 3 3) (bufOfList [1, 2, 3, 4, 5, 6]) (idBuf 3) 1 2 =
       some (C_index (mkDims 2 3 3 3) 1 2, bufOfList [1, 2, 3, 4, 5, 6] (1 * 3 + 2)) ∧
     tiledWorker (mkDims 2 3 3 3) (bufOfList [1, 2, 3, 4, 5, 6]) (idBuf 3) 1 2 =
       some (C_index (mkDims 2 3 3 3) 1 2, bufOfList [1, 2, 3, 4, 5, 6] (1 * 3 + 2))) :=
  ⟨by decide, by decide,
    C7_identity 2 3 (bufOfList [1, 2, 3, 4, 5, 6]) 1 2 (by decide) (by decide)⟩

/-- C6: for output dimensions `rows ≥ 1`, `cols ≥ 1`, both `main`s produce a
fixed `(TILE_WIDTH, TILE_WIDTH)` block extent and a grid with
`ceil(rows/TILE_WIDTH)` blocks along the output-row axis and
`ceil(cols/TILE_WIDTH)` along the output-column axis (the row axis is grid-`x`
in the naive program and grid-`y` in the tiled program, matching each kernel's
coordinate assignment); the expression `(n-1)/TILE_WIDTH + 1` equals
`ceil(n/TILE_WIDTH)` for every `n ≥ 1`; and every output coordinate
`(r, c)` with `r < rows`, `c < cols` is assigned to some block/thread pair on
each axis of each program, including partial edge blocks. -/
theorem C6_launch_geometry (rows cols : Nat) (hrows : 1 ≤ rows) (hcols : 1 ≤ cols) :
    simpleDimGrid rows cols = ⟨ceilTiles rows, ceilTiles cols, 1⟩ ∧
    tiledDimGrid rows cols = ⟨ceilTiles cols, ceilTiles rows, 1⟩ ∧
    dimBlock = ⟨TILE_WIDTH, TILE_WIDTH, 1⟩ ∧
    (∀ n, 1 ≤ n → ceilTiles n = (n + TILE_WIDTH - 1) / TILE_WIDTH) ∧
    (∀ r c, r < rows → c < cols →
      (∃ b t, b < (simpleDimGrid rows cols).x ∧ t < dimBlock.x ∧ coordOf b t = r) ∧
      (∃ b t, b < (simpleDimGrid rows cols).y ∧ t < dimBlock.y ∧ coordOf b t = c) ∧
      (∃ b t, b < (tiledDimGrid rows cols).y ∧ t < dimBlock.y ∧ coordOf b t = r) ∧
      (∃ b t, b < (tiledDimGrid rows cols).x ∧ t < dimBlock.x ∧ coordOf b t = c)) := by
  refine ⟨rfl, rfl, rfl, ?_, ?_⟩
  · intro n hn
    unfold ceilTiles TILE_WIDTH
    have h : n + 16 - 1 = (n - 1) + 16 := by omega
    rw [h, Nat.add_div_right _ (by norm_num)]
  · intro r c hr hc
    exact ⟨coord_cover hr, coord_cover hc, coord_cover hr, coord_cover hc⟩

theorem C6_witness :
    (1 : Nat) ≤ 17 ∧ (1 : Nat) ≤ 5 ∧
    (simpleDimGrid 17 5 = ⟨ceilTiles 17, ceilTiles 5, 1⟩ ∧
     tiledDimGrid 17 5 = ⟨ceilTiles 5, ceilTiles 17, 1⟩ ∧
     dimBlock = ⟨TILE_WIDTH, TILE_WIDTH, 1⟩ ∧
     (∀ n, 1 ≤ n → ceilTiles n = (n + TILE_WIDTH - 1) / TILE_WIDTH) ∧
     (∀ r c, r < 17 → c < 5 →
       (∃ b t, b < (simpleDimGrid 17 5).x ∧ t < dimBlock.x ∧ coordOf b t = r) ∧
       (∃ b t, b < (simpleDimGrid 17 5).y ∧ t < dimBlock.y ∧ coordOf b t = c) ∧
       (∃ b t, b < (tiledDimGrid 17 5).y ∧ t < dimBlock.y ∧ coordOf b t = r) ∧
       (∃ b t, b < (tiledDimGrid 17 5).x ∧ t < dimBlock.x ∧ coordOf b t = c))) :=
  ⟨by decide, by decide, C6_launch_geometry 17 5 (by decide) (by decide)⟩

/-- C8: each naive-kernel thread whose coordinate is within output bounds
performs exactly one write, to its own cell `Row * numCColumns + Col`; a
thread whose coordinate is out of bounds performs no reads of `A` or `B` and
no write at all; and no thread changes any output cell other than its own. -/
theorem C8_naive_frame (d : Dims) (A B : Nat → Int) (Row Col : Nat) (C0 : Nat → Int) :
    (Row < d.numCRows ∧ Col < d.numCColumns →
      (naiveThread d A B Row Col).writes =
        [(C_index d Row Col, naiveCvalue d A B Row Col)]) ∧
    (¬(Row < d.numCRows ∧ Col < d.numCColumns) →
      naiveThread d A B Row Col = ⟨[], [], []⟩) ∧
    (∀ j, j ≠ C_index d Row Col →
      applyWrites C0 (naiveThread d A B Row Col).writes j = C0 j) := by
  unfold naiveThread
  by_cases h : Row < d.numCRows ∧ Col < d.numCColumns
  · rw [if_pos h]
    refine ⟨fun _ => rfl, fun hn => absurd h hn, fun j hj => ?_⟩
    show applyWrites C0 [(C_index d Row Col, naiveCvalue d A B Row Col)] j = C0 j
    show (fun k => if k = C_index d Row Col then naiveCvalue d A B Row Col else C0 k) j = C0 j
    simp only [if_neg hj]
  · rw [if_neg h]
    exact ⟨fun hp => absurd hp h, fun _ => rfl, fun j _ => rfl⟩

theorem C8_witness :
    ((0 : Nat) < 2 ∧ (1 : Nat) < 2 →
      (naiveThread ⟨2, 2, 2, 2, 2, 2⟩ (bufOfList [1, 2, 3, 4]) (bufOfList [5, 6, 7, 8]) 0 1).writes =
        [(C_index ⟨2, 2, 2, 2, 2, 2⟩ 0 1,
          naiveCvalue ⟨2, 2, 2, 2, 2, 2⟩ (bufOfList [1, 2, 3, 4]) (bufOfList [5, 6, 7, 8]) 0 1)]) ∧
    (¬((0 : Nat) < 2 ∧ (1 : Nat) < 2) →
      naiveThread ⟨2, 2, 2, 2, 2, 2⟩ (bufOfList [1, 2, 3, 4]) (bufOfList [5, 6, 7, 8]) 0 1 =
        ⟨[], [], []⟩) ∧
    (∀ j, j ≠ C_index ⟨2, 2, 2, 2, 2, 2⟩ 0 1 →
      applyWrites (fun _ => 0)
        (naiveThread ⟨2, 2, 2, 2, 2, 2⟩ (bufOfList [1, 2, 3, 4]) (bufOfList [5, 6, 7, 8]) 0 1).writes j =
        (fun _ => (0 : Int)) j) :=
  C8_naive_frame ⟨2, 2, 2, 2, 2, 2⟩ (bufOfList [1, 2, 3, 4]) (bufOfList [5, 6, 7, 8]) 0 1
    (fun _ => 0)

/-- C9: under the kernel preconditions `numAColumns = numBRows`,
`numCRows = numARows`, `numCColumns = numBColumns`, every flat buffer index
computed by an in-bounds naive-kernel thread is within the corresponding
buffer's length (invariant `buffer.length = rows * columns`); and the
precondition is necessary: there are dimensions with `numAColumns > numBRows`
for which the `B` read index reaches `B`'s buffer length. -/
theorem C9_index_safety :
    (∀ (d : Dims) (Row Col i : Nat),
      d.numAColumns = d.numBRows → d.numCRows = d.numARows →
      d.numCColumns = d.numBColumns →
      Row < d.numCRows → Col < d.numCColumns →
      (i < d.numAColumns → A_index d Row i < lenA d ∧ B_index d Col i < lenB d) ∧
      C_index d Row Col < lenC d) ∧
    (∃ (d : Dims) (Row Col i : Nat),
      d.numBRows < d.numAColumns ∧ d.numCRows = d.numARows ∧
      d.numCColumns = d.numBColumns ∧
      Row < d.numCRows ∧ Col < d.numCColumns ∧ i < d.numAColumns ∧
      lenB d ≤ B_index d Col i) := by
  constructor
  · intro d Row Col i h1 h2 h3 hr hc
    unfold A_index B_index C_index lenA lenB lenC
    refine ⟨fun hi => ⟨?_, ?_⟩, ?_⟩
    · have hrow : Row + 1 ≤ d.numARows := by omega
      have hmul : (Row + 1) * d.numAColumns ≤ d.numARows * d.numAColumns :=
        Nat.mul_le_mul_right _ hrow
      have hs : (Row + 1) * d.numAColumns = Row * d.numAColumns + d.numAColumns :=
        Nat.succ_mul _ _
      omega
    · have hi' : i + 1 ≤ d.numBRows := by omega
      have hmul : (i + 1) * d.numBColumns ≤ d.numBRows * d.numBColumns :=
        Nat.mul_le_mul_right _ hi'
      have hs : (i + 1) * d.numBColumns = i * d.numBColumns + d.numBColumns :=
        Nat.succ_mul _ _
      omega
    · have hrow : Row + 1 ≤ d.numCRows := by omega
      have hmul : (Row + 1) * d.numCColumns ≤ d.numCRows * d.numCColumns :=
        Nat.mul_le_mul_right _ hrow
      have hs : (Row + 1) * d.numCColumns = Row * d.numCColumns + d.numCColumns :=
        Nat.succ_mul _ _
      omega
  · exact ⟨⟨1, 2, 1, 1, 1, 1⟩, 0, 0, 1, by decide⟩

/-- C10: a tiled-kernel thread whose output coordinate is out of bounds still
performs its cooperative scratch store in every one of the `numTiles` tile
iterations (storing the guarded operand element or zero), but writes `C` only
when `Row < numCRows ∧ Col < numCColumns`, and no cell of `C` outside the
in-bounds coordinate rectangle is changed. -/
theorem C10_tiled_frame (d : Dims) (A B : Nat → Int) (bx by' tx ty : Nat)
    (C0 : Nat → Int) :
    (tiledThread d A B bx by' tx ty).storesA.length = numTiles d ∧
    (tiledThread d A B bx by' tx ty).storesB.length = numTiles d ∧
    (∀ t, t < numTiles d →
      (tiledThread d A B bx by' tx ty).storesA.getD t 0 =
        (if coordOf by' ty < d.numCRows ∧ t * TILE_WIDTH + tx < d.numAColumns then
          A (coordOf by' ty * d.numAColumns + (t * TILE_WIDTH + tx)) else 0) ∧
      (tiledThread d A B bx by' tx ty).storesB.getD t 0 =
        (if coordOf bx tx < d.numCColumns ∧ t * TILE_WIDTH + ty < d.numAColumns then
          B ((t * TILE_WIDTH + ty) * d.numCColumns + coordOf bx tx) else 0)) ∧
    (¬(coordOf by' ty < d.numCRows ∧ coordOf bx tx < d.numCColumns) →
      (tiledThread d A B bx by' tx ty).writes = []) ∧
    (∀ j, (∀ r c, r < d.numCRows → c < d.numCColumns → j ≠ C_index d r c) →
      applyWrites C0 (tiledThread d A B bx by' tx ty).writes j = C0 j) := by
  refine ⟨?_, ?_, ?_, ?_, ?_⟩
  · show ((List.range (numTiles d)).map _).length = numTiles d
    rw [List.length_map, List.length_range]
  · show ((List.range (numTiles d)).map _).length = numTiles d
    rw [List.length_map, List.length_range]
  · intro t ht
    exact ⟨getD_map_range _ ht, getD_map_range _ ht⟩
  · intro h
    show (if by' * TILE_WIDTH + ty < d.numCRows ∧ bx * TILE_WIDTH + tx < d.numCColumns
        then _ else []) = []
    exact if_neg h
  · intro j hj
    show applyWrites C0
      (if by' * TILE_WIDTH + ty < d.numCRows ∧ bx * TILE_WIDTH + tx < d.numCColumns
        then [(C_index d (by' * TILE_WIDTH + ty) (bx * TILE_WIDTH + tx),
          tiledCvalue d A B (by' * TILE_WIDTH + ty) (bx * TILE_WIDTH + tx))]
        else []) j = C0 j
    by_cases h : by' * TILE_WIDTH + ty < d.numCRows ∧ bx * TILE_WIDTH + tx < d.numCColumns
    · rw [if_pos h]
      have hne := hj (by' * TILE_WIDTH + ty) (bx * TILE_WIDTH + tx) h.1 h.2
      show (fun k => if k = C_index d (by' * TILE_WIDTH + ty) (bx * TILE_WIDTH + tx)
          then tiledCvalue d A B (by' * TILE_WIDTH + ty) (bx * TILE_WIDTH + tx)
          else C0 k) j = C0 j
      simp only [if_neg hne]
    · rw [if_neg h]
      rfl

theorem C10_witness :
    ((tiledThread (mkDims 2 2 2 2) (bufOfList [1, 2, 3, 4]) (bufOfList [5, 6, 7, 8])
        0 1 0 0).storesA.length = numTiles (mkDims 2 2 2 2) ∧
      (tiledThread (mkDims 2 2 2 2) (bufOfList [1, 2, 3, 4]) (bufOfList [5, 6, 7, 8])
        0 1 0 0).storesB.length = numTiles (mkDims 2 2 2 2) ∧
      (∀ t, t < numTiles (mkDims 2 2 2 2) →
        (tiledThread (mkDims 2 2 2 2) (bufOfList [1, 2, 3, 4]) (bufOfList [5, 6, 7, 8])
          0 1 0 0).storesA.getD t 0 =
          (if coordOf 1 0 < (mkDims 2 2 2 2).numCRows ∧
              t * TILE_WIDTH + 0 < (mkDims 2 2 2 2).numAColumns then
            bufOfList [1, 2, 3, 4]
              (coordOf 1 0 * (mkDims 2 2 2 2).numAColumns + (t * TILE_WIDTH + 0)) else 0) ∧
        (tiledThread (mkDims 2 2 2 2) (bufOfList [1, 2, 3, 4]) (bufOfList [5, 6, 7, 8])
          0 1 0 0).storesB.getD t 0 =
          (if coordOf 0 0 < (mkDims 2 2 2 2).numCColumns ∧
              t * TILE_WIDTH + 0 < (mkDims 2 2 2 2).numAColumns then
            bufOfList [5, 6, 7, 8]
              ((t * TILE_WIDTH + 0) * (mkDims 2 2 2 2).numCColumns + coordOf 0 0) else 0)) ∧
      (¬(coordOf 1 0 < (mkDims 2 2 2 2).numCRows ∧
          coordOf 0 0 < (mkDims 2 2 2 2).numCColumns) →
        (tiledThread (mkDims 2 2 2 2) (bufOfList [1, 2, 3, 4]) (bufOfList [5, 6, 7, 8])
          0 1 0 0).writes = []) ∧
      (∀ j, (∀ r c, r < (mkDims 2 2 2 2).numCRows → c < (mkDims 2 2 2 2).numCColumns →
          j ≠ C_index (mkDims 2 2 2 2) r c) →
        applyWrites (fun _ => 0)
          (tiledThread (mkDims 2 2 2 2) (bufOfList [1, 2, 3, 4]) (bufOfList [5, 6, 7, 8])
            0 1 0 0).writes j = (fun _ => (0 : Int)) j)) :=
  C10_tiled_frame (mkDims 2 2 2 2) (bufOfList [1, 2, 3, 4]) (bufOfList [5, 6, 7, 8])
    0 1 0 0 (fun _ => 0)

theorem runMain_error_cases (aR aC bR bC : Nat) (fails : HostEvent → Bool) :
    (runMain aR aC bR bC fails).error = none ∨
    (runMain aR aC bR bC fails).error = some HostError.deviceOpFailed := by
  unfold runMain
  repeat' split
  all_goals simp

/-- C4 (counterexample): with `A` of dimensions `2 × 3` and `B` of dimensions
`4 × 5` — a dimension mismatch, `numAColumns = 3 ≠ 4 = numBRows` — `main`
does not fail with `dimensionMismatch`, and it does perform device
allocation, contradicting the claim that the mismatch is detected before any
device work with no device allocation performed. -/
theorem C4_counterexample :
    (mkDims 2 3 4 5).numAColumns ≠ (mkDims 2 3 4 5).numBRows ∧
    (runMain 2 3 4 5 (fun _ => false)).error ≠ some HostError.dimensionMismatch ∧
    HostEvent.cudaMalloc BufId.A ∈ (runMain 2 3 4 5 (fun _ => false)).events ∧
    HostEvent.cudaMalloc BufId.B ∈ (runMain 2 3 4 5 (fun _ => false)).events ∧
    HostEvent.cudaMalloc BufId.C ∈ (runMain 2 3 4 5 (fun _ => false)).events := by
  decide

/-- C4 (amended): neither `main` validates `A.columns = B.rows`. On a
dimension mismatch no `dimensionMismatch` error is ever produced (under any
failure schedule), and when the device operations succeed `main` allocates
all three device buffers, launches the kernel, and returns success. -/
theorem C4_no_dimension_validation (aR aC bR bC : Nat) (fails : HostEvent → Bool)
    (hmis : aC ≠ bR) :
    (runMain aR aC bR bC fails).error ≠ some HostError.dimensionMismatch ∧
    ((∀ e, fails e = false) →
      HostEvent.cudaMalloc BufId.A ∈ (runMain aR aC bR bC fails).events ∧
      HostEvent.cudaMalloc BufId.B ∈ (runMain aR aC bR bC fails).events ∧
      HostEvent.cudaMalloc BufId.C ∈ (runMain aR aC bR bC fails).events ∧
      HostEvent.kernelLaunch ∈ (runMain aR aC bR bC fails).events ∧
      (runMain aR aC bR bC fails).error = none) := by
  constructor
  · rcases runMain_error_cases aR aC bR bC fails with h | h <;> rw [h] <;> simp
  · intro hall
    have hrun : runMain aR aC bR bC fails =
        { dims := mkDims aR aC bR bC, error := none,
          events := [.cudaMalloc .A, .cudaMalloc .B, .cudaMalloc .C, .memcpyHtoD .A,
            .memcpyHtoD .B, .kernelLaunch, .deviceSync, .memcpyDtoH, .cudaFree .A,
            .cudaFree .B, .cudaFree .C],
          allocated := [] } := by
      unfold runMain
      simp only [hall, Bool.false_eq_true, if_false]
    rw [hrun]
    refine ⟨?_, ?_, ?_, ?_, rfl⟩ <;> simp

theorem C4_witness :
    (3 : Nat) ≠ 4 ∧
    ((runMain 2 3 4 5 (fun _ => false)).error ≠ some HostError.dimensionMismatch ∧
      ((∀ e : HostEvent, (fun _ : HostEvent => false) e = false) →
        HostEvent.cudaMalloc BufId.A ∈ (runMain 2 3 4 5 (fun _ => false)).events ∧
        HostEvent.cudaMalloc BufId.B ∈ (runMain 2 3 4 5 (fun _ => false)).events ∧
        HostEvent.cudaMalloc BufId.C ∈ (runMain 2 3 4 5 (fun _ => false)).events ∧
        HostEvent.kernelLaunch ∈ (runMain 2 3 4 5 (fun _ => false)).events ∧
        (runMain 2 3 4 5 (fun _ => false)).error = none)) :=
  ⟨by decide, C4_no_dimension_validation 2 3 4 5 (fun _ => false) (by decide)⟩

/-- C5 (counterexample): when the host-to-device copy of `A` fails after all
three `cudaMalloc`s succeeded, `main` propagates the device error while
`deviceA`, `deviceB`, `deviceC` are all still allocated and no `cudaFree` was
issued — previously acquired device buffers are not released before the error
propagates. -/
theorem C5_counterexample :
    (runMain 2 3 3 5 (fun e => decide (e = HostEvent.memcpyHtoD BufId.A))).error =
      some HostError.deviceOpFailed ∧
    (runMain 2 3 3 5 (fun e => decide (e = HostEvent.memcpyHtoD BufId.A))).allocated =
      [BufId.A, BufId.B, BufId.C] ∧
    HostEvent.cudaFree BufId.A ∉
      (runMain 2 3 3 5 (fun e => decide (e = HostEvent.memcpyHtoD BufId.A))).events ∧
    HostEvent.cudaFree BufId.B ∉
      (runMain 2 3 3 5 (fun e => decide (e = HostEvent.memcpyHtoD BufId.A))).events ∧
    HostEvent.cudaFree BufId.C ∉
      (runMain 2 3 3 5 (fun e => decide (e = HostEvent.memcpyHtoD BufId.A))).events := by
  decide

/-- C5 (amended): whenever any `wbCheck`-wrapped device operation after the
first successful allocation fails, `main` returns the device error immediately
(`wbCheck` does `return -1`) with at least one device buffer still allocated:
device buffers are leaked on partial failure. -/
theorem C5_leak_on_partial_failure (aR aC bR bC : Nat) (e : HostEvent)
    (he : e ∈ checkedAfterFirstAlloc) :
    (runMain aR aC bR bC (fun x => decide (x = e))).error =
      some HostError.deviceOpFailed ∧
    (runMain aR aC bR bC (fun x => decide (x = e))).allocated ≠ [] := by
  simp only [checkedAfterFirstAlloc, List.mem_cons, List.not_mem_nil, or_false] at he
  rcases he with rfl | rfl | rfl | rfl | rfl | rfl | rfl | rfl
  all_goals exact ⟨rfl, List.cons_ne_nil _ _⟩

theorem C5_witness :
    (runMain 4 4 4 4 (fun x => decide (x = HostEvent.memcpyDtoH))).error =
      some HostError.deviceOpFailed ∧
    (runMain 4 4 4 4 (fun x => decide (x = HostEvent.memcpyDtoH))).allocated ≠ [] :=
  C5_leak_on_partial_failure 4 4 4 4 HostEvent.memcpyDtoH (by decide)

end GPU
